import Mathlib

/-!
Shallow embedding of `the_snake.py`: the Snake/Apple state machine of the
snake game (constants, `Apple.randomize_position`, `Snake.update_direction`,
`Snake.move`, `Snake.grow`, `Snake.reset`, and the eating sequence of the
main loop), together with proofs of the specified properties.

Python integers are modelled as `Int`; Python's `%` with a positive modulus
agrees with Lean's `Int.emod` (result in `[0, n)`), so `%` is translated
verbatim.  `None`-able fields become `Option`; the pygame rendering and
event plumbing is outside the model.
-/

namespace TheSnake

/-- Constant `SCREEN_WIDTH = 640`. -/
def SCREEN_WIDTH : Int := 640

/-- Constant `SCREEN_HEIGHT = 480`. -/
def SCREEN_HEIGHT : Int := 480

/-- Constant `GRID_SIZE = 20`. -/
def GRID_SIZE : Int := 20

/-- Constant `GRID_WIDTH = SCREEN_WIDTH // GRID_SIZE`. -/
def GRID_WIDTH : Int := SCREEN_WIDTH / GRID_SIZE

/-- Constant `GRID_HEIGHT = SCREEN_HEIGHT // GRID_SIZE`. -/
def GRID_HEIGHT : Int := SCREEN_HEIGHT / GRID_SIZE

/-- Constant `APPLE_COLOR = (255, 0, 0)`. -/
def APPLE_COLOR : Int × Int × Int := (255, 0, 0)

/-- Constant `SNAKE_COLOR = (0, 255, 0)`. -/
def SNAKE_COLOR : Int × Int × Int := (0, 255, 0)

/-- Direction `UP = (0, -1)`. -/
def UP : Int × Int := (0, -1)

/-- Direction `DOWN = (0, 1)`. -/
def DOWN : Int × Int := (0, 1)

/-- Direction `LEFT = (-1, 0)`. -/
def LEFT : Int × Int := (-1, 0)

/-- Direction `RIGHT = (1, 0)`. -/
def RIGHT : Int × Int := (1, 0)

/-- The four direction vectors that `handle_keys` can queue. -/
def directions : List (Int × Int) := [UP, DOWN, LEFT, RIGHT]

/-- Default position of `GameObject.__init__`: `(SCREEN_WIDTH // 2, SCREEN_HEIGHT // 2)`. -/
def centerCell : Int × Int := (SCREEN_WIDTH / 2, SCREEN_HEIGHT / 2)

/-- State of an `Apple` object: `position` plus the inherited `body_color`. -/
structure Apple where
  position : Int × Int
  body_color : Int × Int × Int
deriving DecidableEq

/-- Translation of `Apple.randomize_position`, with the two `random.randint` draws `d`
made explicit: `position = (d.1 * GRID_SIZE, d.2 * GRID_SIZE)`. -/
def Apple.randomize_position (a : Apple) (d : Int × Int) : Apple :=
  { a with position := (d.1 * GRID_SIZE, d.2 * GRID_SIZE) }

/-- Translation of `Apple.__init__` given the draw `d` of its single `randomize_position`
call: `super().__init__(body_color=APPLE_COLOR)` leaves `position` at the
screen center, then `randomize_position` overwrites it. -/
def Apple.mkInit (d : Int × Int) : Apple :=
  Apple.randomize_position { position := centerCell, body_color := APPLE_COLOR } d

/-- State of the `Snake` object: the inherited `position`/`body_color` and
the fields set in `Snake.__init__`. -/
structure Snake where
  position : Int × Int
  body_color : Int × Int × Int
  length : Nat
  positions : List (Int × Int)
  direction : Int × Int
  next_direction : Option (Int × Int)
  last_position : Option (Int × Int)
deriving DecidableEq

/-- Translation of `Snake.__init__`. -/
def Snake.mkInit : Snake :=
  { position := centerCell
    body_color := SNAKE_COLOR
    length := 1
    positions := [centerCell]
    direction := RIGHT
    next_direction := none
    last_position := none }

/-- Translation of `Snake.get_head_position`: `self.positions[0]` (on the nonempty bodies
of actual play). -/
def Snake.get_head_position (s : Snake) : Int × Int :=
  s.positions.headI

/-- Translation of `Snake.update_direction`. -/
def Snake.update_direction (s : Snake) : Snake :=
  match s.next_direction with
  | none => s
  | some nd =>
    if ¬ (s.direction.1 + nd.1 = 0 ∧ s.direction.2 + nd.2 = 0) then
      { s with direction := nd, next_direction := none }
    else
      { s with next_direction := none }

/-- Translation of `Snake.reset`. -/
def Snake.reset (s : Snake) : Snake :=
  { s with length := 1
           positions := [s.position]
           direction := RIGHT
           next_direction := none
           last_position := none }

/-- The candidate new head computed at the top of `Snake.move`:
`((head_x + dir_x * GRID_SIZE) % SCREEN_WIDTH, (head_y + dir_y * GRID_SIZE) % SCREEN_HEIGHT)`. -/
def Snake.new_head (s : Snake) : Int × Int :=
  ((s.get_head_position.1 + s.direction.1 * GRID_SIZE) % SCREEN_WIDTH,
   (s.get_head_position.2 + s.direction.2 * GRID_SIZE) % SCREEN_HEIGHT)

/-- Translation of `Snake.move`: record the tail cell in `last_position`
(`self.positions[-1] if self.positions else None`), reset on
self-collision against `positions[1:]`, otherwise prepend the new head and
pop the tail when the body exceeds `length`. -/
def Snake.move (s : Snake) : Snake :=
  let nh := s.new_head
  let s1 := { s with last_position := s.positions.getLast? }
  if nh ∈ s1.positions.tail then
    s1.reset
  else
    let s2 := { s1 with positions := nh :: s1.positions }
    if s2.positions.length > s2.length then
      { s2 with positions := s2.positions.dropLast }
    else
      s2

/-- Translation of `Snake.grow`: `self.length += 1`. -/
def Snake.grow (s : Snake) : Snake :=
  { s with length := s.length + 1 }

/-- Translation of `handle_keys` for a directional key `k`: `snake.next_direction = k`. -/
def handle_key (k : Int × Int) (s : Snake) : Snake :=
  { s with next_direction := some k }

/-- The apple-relocation loop of `main`
(`while apple.position in snake.positions: apple.randomize_position()`),
with the stream of pending `randint` draws `ds` made explicit; `none` means
the supplied draws were exhausted while still colliding. -/
def relocate_while (ds : List (Int × Int)) (a : Apple) (body : List (Int × Int)) :
    Option Apple :=
  match ds with
  | [] => if a.position ∈ body then none else some a
  | d :: rest =>
    if a.position ∈ body then relocate_while rest (a.randomize_position d) body
    else some a

/-- The apple-consumption step of `main` after `snake.move()`
(lines 281-287): on `head == apple.position`, `snake.grow()`, one
unconditional `randomize_position` (draw `d0`), then the relocation loop. -/
def eat_step (d0 : Int × Int) (ds : List (Int × Int)) (s : Snake) (a : Apple) :
    Snake × Option Apple :=
  if s.get_head_position = a.position then
    let s1 := s.grow
    let a1 := a.randomize_position d0
    (s1, relocate_while ds a1 s1.positions)
  else
    (s, some a)

/-- Snake states reachable by the game loop: the initial state, queuing a
directional key, resolving the pending direction, a move, and a move
followed by the growth of the eating branch. -/
inductive Reachable : Snake → Prop where
  | init : Reachable Snake.mkInit
  | key {s : Snake} (k : Int × Int) : k ∈ directions → Reachable s →
      Reachable (handle_key k s)
  | upd {s : Snake} : Reachable s → Reachable s.update_direction
  | mv {s : Snake} : Reachable s → Reachable s.move
  | eat {s : Snake} : Reachable s → Reachable s.move.grow

/-- A cell lies on the toroidal screen grid's coordinate range. -/
abbrev inGrid (p : Int × Int) : Prop :=
  0 ≤ p.1 ∧ p.1 < SCREEN_WIDTH ∧ 0 ≤ p.2 ∧ p.2 < SCREEN_HEIGHT

/-- Well-formedness invariant of reachable snake states. -/
def WF (s : Snake) : Prop :=
  s.positions ≠ [] ∧
  (∀ p ∈ s.positions, inGrid p) ∧
  s.direction ∈ directions ∧
  (∀ d, s.next_direction = some d → d ∈ directions) ∧
  s.positions.length ≤ s.length ∧
  s.length ≤ s.positions.length + 1 ∧
  s.position = centerCell ∧
  s.positions.Nodup

/-! ### Case analyses of the mutating operations -/

/-- On self-collision `move` is `reset` of the snake (the `last_position`
written before the check is overwritten back to `none`). -/
lemma move_collision (s : Snake) (h : s.new_head ∈ s.positions.tail) :
    s.move =
      { s with
        length := 1,
        positions := [s.position],
        direction := RIGHT,
        next_direction := none,
        last_position := none } := by
  simp only [Snake.move]
  split
  · rfl
  · exact absurd h (by assumption)

/-- Without self-collision `move` prepends the new head and pops the tail
when the body would exceed `length`. -/
lemma move_no_collision (s : Snake) (h : s.new_head ∉ s.positions.tail) :
    s.move =
      { s with
        positions := if s.positions.length + 1 > s.length
                     then (s.new_head :: s.positions).dropLast
                     else s.new_head :: s.positions,
        last_position := s.positions.getLast? } := by
  simp only [Snake.move]
  split
  · exact absurd (by assumption) h
  · simp only [List.length_cons]
    split
    · simp_all
    · simp_all

/-- Resolving with no pending direction is the identity. -/
lemma update_direction_none (s : Snake) (h : s.next_direction = none) :
    s.update_direction = s := by
  simp [Snake.update_direction, h]

/-- Resolving a pending direction clears the pending slot and
commits the new vector exactly when it is not the reverse of the heading. -/
lemma update_direction_some (s : Snake) (d : Int × Int) (h : s.next_direction = some d) :
    s.update_direction =
      { s with
        direction := if s.direction.1 + d.1 = 0 ∧ s.direction.2 + d.2 = 0
                     then s.direction
                     else d,
        next_direction := none } := by
  simp only [Snake.update_direction, h]
  split
  · simp_all
  · simp_all

/-- Moving by one of the four unit vectors always changes the head cell:
a `GRID_SIZE` shift is never `0` modulo a screen dimension. -/
lemma new_head_ne_head (s : Snake) (hd : s.direction ∈ directions) :
    s.new_head ≠ s.get_head_position := by
  simp only [directions, UP, DOWN, LEFT, RIGHT, List.mem_cons, List.not_mem_nil, or_false] at hd
  intro h
  have hfst := congrArg Prod.fst h
  have hsnd := congrArg Prod.snd h
  simp only [Snake.new_head] at hfst hsnd
  rcases hd with hd | hd | hd | hd <;> rw [hd] at hfst hsnd <;>
    simp only [GRID_SIZE, SCREEN_WIDTH, SCREEN_HEIGHT] at hfst hsnd <;> omega


/-! ### The well-formedness invariant is preserved -/

lemma inGrid_new_head (s : Snake) : inGrid s.new_head :=
  ⟨Int.emod_nonneg _ (by decide), Int.emod_lt_of_pos _ (by decide),
   Int.emod_nonneg _ (by decide), Int.emod_lt_of_pos _ (by decide)⟩

lemma new_head_not_mem (s : Snake) (hne : s.positions ≠ [])
    (hdir : s.direction ∈ directions) (hc : s.new_head ∉ s.positions.tail) :
    s.new_head ∉ s.positions := by
  have hhd := new_head_ne_head s hdir
  intro hm
  rcases hl : s.positions with _ | ⟨a, t⟩
  · exact hne hl
  · rw [hl] at hm hc
    have ha : s.get_head_position = a := by
      rw [Snake.get_head_position, hl]; rfl
    rcases List.mem_cons.mp hm with h | h
    · exact hhd (ha ▸ h)
    · exact hc h

lemma wf_init : WF Snake.mkInit := by
  refine ⟨by simp [Snake.mkInit], ?_, by decide, ?_, by simp [Snake.mkInit],
    by simp [Snake.mkInit], rfl, by simp [Snake.mkInit]⟩
  · intro p hp
    simp [Snake.mkInit] at hp
    subst hp
    decide
  · intro d hd
    simp [Snake.mkInit] at hd

lemma wf_key (k : Int × Int) (hk : k ∈ directions) (s : Snake) (hs : WF s) :
    WF (handle_key k s) := by
  obtain ⟨hne, hgrid, hdir, _, hle, hge, hpos, hnodup⟩ := hs
  refine ⟨hne, hgrid, hdir, ?_, hle, hge, hpos, hnodup⟩
  intro d hd
  simp only [handle_key, Option.some.injEq] at hd
  exact hd ▸ hk

lemma wf_upd (s : Snake) (hs : WF s) : WF s.update_direction := by
  obtain ⟨hne, hgrid, hdir, hnext, hle, hge, hpos, hnodup⟩ := hs
  rcases hn : s.next_direction with _ | d
  · rw [update_direction_none s hn]
    exact ⟨hne, hgrid, hdir, hnext, hle, hge, hpos, hnodup⟩
  · rw [update_direction_some s d hn]
    refine ⟨hne, hgrid, ?_, ?_, hle, hge, hpos, hnodup⟩
    · dsimp only
      split
      · exact hdir
      · exact hnext d hn
    · intro d' hd'
      simp at hd'

lemma wf_move_aux (s : Snake) (hs : WF s) :
    WF s.move ∧ s.move.positions.length = s.move.length := by
  obtain ⟨hne, hgrid, hdir, hnext, hle, hge, hpos, hnodup⟩ := hs
  by_cases hc : s.new_head ∈ s.positions.tail
  · rw [move_collision s hc]
    refine ⟨⟨by simp, ?_, by show RIGHT ∈ directions; decide, by simp, by simp, by simp,
      hpos, by simp⟩, by simp⟩
    intro p hp
    simp at hp
    subst hp
    rw [hpos]
    decide
  · rw [move_no_collision s hc]
    have hmem := new_head_not_mem s hne hdir hc
    have hnodup2 : (s.new_head :: s.positions).Nodup := List.nodup_cons.mpr ⟨hmem, hnodup⟩
    have hgrid2 : ∀ p ∈ s.new_head :: s.positions, inGrid p := by
      intro p hp
      rcases List.mem_cons.mp hp with h | h
      · exact h ▸ inGrid_new_head s
      · exact hgrid p h
    have hlpos : 0 < s.positions.length := List.length_pos.mpr hne
    dsimp only
    split
    · rename_i hgt
      have hlen : s.length = s.positions.length := by omega
      have hdl : ((s.new_head :: s.positions).dropLast).length = s.positions.length := by
        simp
      refine ⟨⟨?_, ?_, hdir, hnext, ?_, ?_, hpos, ?_⟩, ?_⟩
      · intro h0
        have h0l : ((s.new_head :: s.positions).dropLast).length = 0 := by
          rw [show (s.new_head :: s.positions).dropLast = ([] : List (Int × Int)) from h0]
          rfl
        omega
      · intro p hp
        exact hgrid2 p (List.dropLast_sublist _ |>.subset hp)
      · simp only [hdl]; omega
      · simp only [hdl]; omega
      · exact hnodup2.sublist (List.dropLast_sublist _)
      · simp only [hdl]; omega
    · rename_i hngt
      have hlen : s.length = s.positions.length + 1 := by omega
      refine ⟨⟨by simp, hgrid2, hdir, hnext, ?_, ?_, hpos, hnodup2⟩, ?_⟩
      · simp; omega
      · simp; omega
      · simp; omega

lemma wf_move (s : Snake) (hs : WF s) : WF s.move :=
  (wf_move_aux s hs).1

lemma move_length (s : Snake) (hs : WF s) :
    s.move.positions.length = s.move.length :=
  (wf_move_aux s hs).2

lemma wf_grow_after_move (s : Snake) (hs : WF s) : WF s.move.grow := by
  obtain ⟨⟨hne, hgrid, hdir, hnext, hle, hge, hpos, hnodup⟩, hlen⟩ := wf_move_aux s hs
  exact ⟨hne, hgrid, hdir, hnext, by simp [Snake.grow]; omega, by simp [Snake.grow]; omega,
    hpos, hnodup⟩

/-- Every state the game loop can reach is well-formed. -/
theorem reachable_wf {s : Snake} (h : Reachable s) : WF s := by
  induction h with
  | init => exact wf_init
  | key k hk _ ih => exact wf_key k hk _ ih
  | upd _ ih => exact wf_upd _ ih
  | mv _ ih => exact wf_move _ ih
  | eat _ ih => exact wf_grow_after_move _ ih

/-! ### Further helper lemmas -/

lemma headI_mem (l : List (Int × Int)) (h : l ≠ []) : l.headI ∈ l := by
  cases l with
  | nil => exact absurd rfl h
  | cons a t => exact List.mem_cons_self a t

/-- Without self-collision, the body's new head is the computed `new_head`. -/
lemma move_head (s : Snake) (hne : s.positions ≠ [])
    (hc : s.new_head ∉ s.positions.tail) :
    s.move.get_head_position = s.new_head := by
  rw [move_no_collision s hc]
  rcases hl : s.positions with _ | ⟨a, t⟩
  · exact absurd hl hne
  · dsimp only [Snake.get_head_position]
    split
    · rfl
    · rfl

/-- Whenever the relocation loop of `main` returns an apple, that apple's
position avoids the body it was checked against. -/
lemma relocate_while_some (ds : List (Int × Int)) (a : Apple)
    (body : List (Int × Int)) (a' : Apple)
    (h : relocate_while ds a body = some a') : a'.position ∉ body := by
  induction ds generalizing a with
  | nil =>
    simp only [relocate_while] at h
    split_ifs at h with hcond
    · injection h with h
      exact h ▸ hcond
  | cons d rest ih =>
    simp only [relocate_while] at h
    split_ifs at h with hcond
    · exact ih _ h
    · injection h with h
      exact h ▸ hcond

/-! ### Demonstration states used by the witnesses -/

/-- Four move-and-grow ticks from the initial state. -/
def grown4 : Snake := (((Snake.mkInit.move.grow).move.grow).move.grow).move.grow

/-- State after a further tick turning up. -/
def turned1 : Snake := ((handle_key UP grown4).update_direction).move

/-- State after a further tick turning left. -/
def turned2 : Snake := ((handle_key LEFT turned1).update_direction).move

/-- State after the down-key is resolved: the next move bites the body. -/
def preCollision : Snake := (handle_key DOWN turned2).update_direction

lemma reachable_preCollision : Reachable preCollision :=
  Reachable.upd (Reachable.key DOWN (by decide) (Reachable.mv (Reachable.upd
    (Reachable.key LEFT (by decide) (Reachable.mv (Reachable.upd
      (Reachable.key UP (by decide) (Reachable.eat (Reachable.eat (Reachable.eat
        (Reachable.eat Reachable.init)))))))))))

/-- A reachable-shaped state whose head sits in the rightmost column. -/
def wrapDemo : Snake :=
  { position := centerCell
    body_color := SNAKE_COLOR
    length := 1
    positions := [(620, 240)]
    direction := RIGHT
    next_direction := none
    last_position := none }

/-! ### The claims -/

/-- Claim C1: if the new head computed from the current head and heading
(with wraparound) occurs in `body[1:]`, `move()` performs a reset and
returns: afterwards `targetLength = 1`, the body is the single center
cell, the heading is `RIGHT`, the pending heading and the last-erased
marker are cleared, and the new head is not prepended. -/
theorem move_self_collision_resets (s : Snake) (hr : Reachable s)
    (h : s.new_head ∈ s.positions.tail) :
    s.move.length = 1 ∧
    s.move.positions = [centerCell] ∧
    s.move.direction = RIGHT ∧
    s.move.next_direction = none ∧
    s.move.last_position = none := by
  have hpos := (reachable_wf hr).2.2.2.2.2.2.1
  rw [move_collision s h]
  exact ⟨rfl, by simp [hpos], rfl, rfl, rfl⟩

theorem move_self_collision_resets_witness :
    preCollision.new_head ∈ preCollision.positions.tail ∧
    preCollision.move.length = 1 ∧
    preCollision.move.positions = [centerCell] ∧
    preCollision.move.direction = RIGHT ∧
    preCollision.move.next_direction = none ∧
    preCollision.move.last_position = none :=
  ⟨by decide,
   move_self_collision_resets preCollision reachable_preCollision (by decide)⟩

/-- Claim C2 (counterexample): the initial apple placement of `main`
(`apple = Apple()`) performs a single unchecked randomization, so with the
draw `(16, 12)` the apple spawns exactly on the snake's initial body cell,
refuting the claimed invariant at the initial placement. -/
theorem apple_initial_placement_on_snake :
    (Apple.mkInit (16, 12)).position ∈ Snake.mkInit.positions := by decide

/-- Claim C2 (amended): after every relocation performed by the eating
branch of the game loop — which repeats `randomize_position` while the
apple collides with the snake — the apple's position is not equal to any
cell of the body it was checked against; the initial placement at game
start is a single unchecked randomization and may land on the snake. -/
theorem apple_relocation_avoids_snake (ds : List (Int × Int)) (a : Apple)
    (body : List (Int × Int)) (a' : Apple)
    (h : relocate_while ds a body = some a') :
    a'.position ∉ body :=
  relocate_while_some ds a body a' h

theorem apple_relocation_avoids_snake_witness :
    (Apple.mk (0, 0) APPLE_COLOR).position ∉ [((320 : Int), (240 : Int))] :=
  apple_relocation_avoids_snake [] (Apple.mk (0, 0) APPLE_COLOR) [(320, 240)]
    (Apple.mk (0, 0) APPLE_COLOR) rfl

/-- Claim C3: with a queued pending heading, `update_direction()` commits
it as the new heading if and only if it is not the exact reverse of the
current heading, and in all cases — including rejection — the pending slot
is `none` afterwards. -/
theorem update_direction_commits_iff_not_reverse (s : Snake) (hr : Reachable s)
    (d : Int × Int) (h : s.next_direction = some d) :
    s.update_direction.next_direction = none ∧
    (s.update_direction.direction = d ↔
      ¬ (s.direction.1 + d.1 = 0 ∧ s.direction.2 + d.2 = 0)) := by
  have hd : d ∈ directions := (reachable_wf hr).2.2.2.1 d h
  rw [update_direction_some s d h]
  refine ⟨rfl, ?_⟩
  dsimp only
  constructor
  · intro heq hrev
    rw [if_pos hrev] at heq
    rw [heq] at hrev
    simp only [directions, UP, DOWN, LEFT, RIGHT, List.mem_cons, List.not_mem_nil,
      or_false] at hd
    rcases hd with h' | h' | h' | h' <;> rw [h'] at hrev <;> simp at hrev
  · intro hrev
    rw [if_neg hrev]

theorem update_direction_commits_iff_not_reverse_witness :
    (handle_key LEFT Snake.mkInit).update_direction.next_direction = none ∧
    (handle_key LEFT Snake.mkInit).update_direction.direction ≠ LEFT := by
  have h := update_direction_commits_iff_not_reverse (handle_key LEFT Snake.mkInit)
    (Reachable.key LEFT (by decide) Reachable.init) LEFT rfl
  exact ⟨h.1, fun hc => (h.2.mp hc) (by decide)⟩

/-- Claim C4: in every reachable state `len(body) ≤ targetLength`, and a
`move()` that does not trigger a reset leaves `len(body) = targetLength`. -/
theorem body_length_le_target (s : Snake) (hr : Reachable s) :
    s.positions.length ≤ s.length ∧
    (s.new_head ∉ s.positions.tail → s.move.positions.length = s.move.length) := by
  have hs := reachable_wf hr
  exact ⟨hs.2.2.2.2.1, fun _ => move_length s hs⟩

theorem body_length_le_target_witness :
    Snake.mkInit.positions.length ≤ Snake.mkInit.length ∧
    Snake.mkInit.move.positions.length = Snake.mkInit.move.length :=
  ⟨(body_length_le_target Snake.mkInit Reachable.init).1,
   (body_length_le_target Snake.mkInit Reachable.init).2 (by decide)⟩

/-- Claim C5: `move()` computes the new head by the wraparound formula
`((head_x + dx * GRID_SIZE) % SCREEN_WIDTH, (head_y + dy * GRID_SIZE) % SCREEN_HEIGHT)`;
in particular a head in the rightmost column moving `RIGHT` wraps to
column `0` of the same row. -/
theorem move_head_wraparound (s : Snake) (hne : s.positions ≠ [])
    (hc : s.new_head ∉ s.positions.tail) :
    s.move.get_head_position =
      ((s.get_head_position.1 + s.direction.1 * GRID_SIZE) % SCREEN_WIDTH,
       (s.get_head_position.2 + s.direction.2 * GRID_SIZE) % SCREEN_HEIGHT) ∧
    (s.get_head_position.1 = SCREEN_WIDTH - GRID_SIZE → s.direction = RIGHT →
      0 ≤ s.get_head_position.2 → s.get_head_position.2 < SCREEN_HEIGHT →
      s.move.get_head_position = (0, s.get_head_position.2)) := by
  have h1 := move_head s hne hc
  refine ⟨h1, ?_⟩
  intro hx hdir hy0 hy1
  rw [h1]
  unfold Snake.new_head
  rw [hx, hdir]
  simp only [RIGHT, SCREEN_WIDTH, SCREEN_HEIGHT, GRID_SIZE] at *
  rw [Prod.mk.injEq]
  constructor <;> omega

theorem move_head_wraparound_witness :
    wrapDemo.move.get_head_position = (0, 240) :=
  (move_head_wraparound wrapDemo (by decide) (by decide)).2 (by decide) rfl
    (by decide) (by decide)

/-- Claim C6: when the head sits on the apple after `move()`, the eating
step of the loop increases `targetLength` by exactly one, leaves the body
cells unchanged, and — when the relocation loop terminates — produces an
apple position different from every body cell and from its pre-eaten
value. -/
theorem eating_grows_and_relocates (d0 : Int × Int) (ds : List (Int × Int))
    (s : Snake) (a : Apple) (s' : Snake) (a' : Apple)
    (hne : s.positions ≠ [])
    (heat : s.get_head_position = a.position)
    (hstep : eat_step d0 ds s a = (s', some a')) :
    s'.length = s.length + 1 ∧ s'.positions = s.positions ∧
    a'.position ∉ s'.positions ∧ a'.position ≠ a.position := by
  simp only [eat_step, if_pos heat] at hstep
  rw [Prod.mk.injEq] at hstep
  obtain ⟨hs', hrel⟩ := hstep
  subst hs'
  have hnot := relocate_while_some ds (a.randomize_position d0) s.grow.positions a' hrel
  refine ⟨rfl, rfl, hnot, ?_⟩
  intro he
  exact hnot (he ▸ (heat ▸ headI_mem s.positions hne))

theorem eating_grows_and_relocates_witness :
    Snake.mkInit.grow.length = Snake.mkInit.length + 1 ∧
    Snake.mkInit.grow.positions = Snake.mkInit.positions ∧
    (Apple.mk (0, 0) APPLE_COLOR).position ∉ Snake.mkInit.grow.positions ∧
    (Apple.mk (0, 0) APPLE_COLOR).position ≠ (Apple.mk centerCell APPLE_COLOR).position :=
  eating_grows_and_relocates (0, 0) [] Snake.mkInit (Apple.mk centerCell APPLE_COLOR)
    Snake.mkInit.grow (Apple.mk (0, 0) APPLE_COLOR) (by decide) rfl (by decide)

/-- Claim C7: every reachable state has a duplicate-free body, and one
tick from it — pending-direction resolution, then `move()`, with at most
one `grow()` — again yields a duplicate-free body. -/
theorem body_nodup (s : Snake) (hr : Reachable s) :
    s.positions.Nodup ∧
    s.update_direction.move.positions.Nodup ∧
    s.update_direction.move.grow.positions.Nodup :=
  ⟨(reachable_wf hr).2.2.2.2.2.2.2,
   (reachable_wf (Reachable.mv (Reachable.upd hr))).2.2.2.2.2.2.2,
   (reachable_wf (Reachable.eat (Reachable.upd hr))).2.2.2.2.2.2.2⟩

theorem body_nodup_witness :
    Snake.mkInit.positions.Nodup ∧
    Snake.mkInit.update_direction.move.positions.Nodup ∧
    Snake.mkInit.update_direction.move.grow.positions.Nodup :=
  body_nodup Snake.mkInit Reachable.init

/-- Claim C8: `randomize_position()` with draws `(i, j)` yields position
`(i * GRID_SIZE, j * GRID_SIZE)`: grid-aligned, in `[0, SCREEN_WIDTH) ×
[0, SCREEN_HEIGHT)`, independent of any snake state, and no field other
than `position` changes. -/
theorem randomize_position_grid_aligned (a : Apple) (i j : Int)
    (hi0 : 0 ≤ i) (hi1 : i ≤ GRID_WIDTH - 1) (hj0 : 0 ≤ j) (hj1 : j ≤ GRID_HEIGHT - 1) :
    (a.randomize_position (i, j)).position = (i * GRID_SIZE, j * GRID_SIZE) ∧
    (a.randomize_position (i, j)).position.1 % GRID_SIZE = 0 ∧
    (a.randomize_position (i, j)).position.2 % GRID_SIZE = 0 ∧
    (0 ≤ (a.randomize_position (i, j)).position.1 ∧
      (a.randomize_position (i, j)).position.1 < SCREEN_WIDTH) ∧
    (0 ≤ (a.randomize_position (i, j)).position.2 ∧
      (a.randomize_position (i, j)).position.2 < SCREEN_HEIGHT) ∧
    (a.randomize_position (i, j)).body_color = a.body_color := by
  refine ⟨rfl, ?_, ?_, ⟨?_, ?_⟩, ⟨?_, ?_⟩, rfl⟩ <;>
    · simp only [Apple.randomize_position, GRID_SIZE, GRID_WIDTH, GRID_HEIGHT,
        SCREEN_WIDTH, SCREEN_HEIGHT] at *
      omega

theorem randomize_position_grid_aligned_witness :
    ((Apple.mk (0, 0) APPLE_COLOR).randomize_position (31, 23)).position = (620, 460) ∧
    ((Apple.mk (0, 0) APPLE_COLOR).randomize_position (31, 23)).body_color = APPLE_COLOR :=
  ⟨(randomize_position_grid_aligned (Apple.mk (0, 0) APPLE_COLOR) 31 23
      (by decide) (by decide) (by decide) (by decide)).1,
   (randomize_position_grid_aligned (Apple.mk (0, 0) APPLE_COLOR) 31 23
      (by decide) (by decide) (by decide) (by decide)).2.2.2.2.2⟩

/-- Claim C9: with no pending direction, `update_direction()` is a no-op:
any number of calls leaves the whole snake state (hence the heading)
unchanged. -/
theorem update_direction_noop_iterate (s : Snake) (h : s.next_direction = none)
    (n : Nat) : Snake.update_direction^[n] s = s := by
  induction n with
  | zero => rfl
  | succ n ih => rw [Function.iterate_succ_apply, update_direction_none s h, ih]

theorem update_direction_noop_iterate_witness :
    Snake.update_direction^[5] Snake.mkInit = Snake.mkInit :=
  update_direction_noop_iterate Snake.mkInit rfl 5

/-- Claim C10: the inherited `position` attribute is the screen-center
cell at construction, none of `update_direction`/`move`/`grow`/`reset`
modifies it, and consequently `reset()` of any reachable snake rebuilds
the body as exactly the original center cell. -/
theorem snake_position_frame :
    Snake.mkInit.position = centerCell ∧
    (∀ s : Snake, s.update_direction.position = s.position ∧
      s.move.position = s.position ∧ s.grow.position = s.position ∧
      s.reset.position = s.position) ∧
    (∀ s : Snake, Reachable s →
      s.position = centerCell ∧ s.reset.positions = [centerCell]) := by
  refine ⟨rfl, ?_, ?_⟩
  · intro s
    refine ⟨?_, ?_, rfl, rfl⟩
    · rcases h : s.next_direction with _ | d
      · rw [update_direction_none s h]
      · rw [update_direction_some s d h]
    · by_cases hc : s.new_head ∈ s.positions.tail
      · rw [move_collision s hc]
      · rw [move_no_collision s hc]
  · intro s hr
    have hpos := (reachable_wf hr).2.2.2.2.2.2.1
    exact ⟨hpos, by simp [Snake.reset, hpos]⟩

theorem snake_position_frame_witness :
    Snake.mkInit.move.position = Snake.mkInit.position ∧
    Snake.mkInit.reset.positions = [centerCell] :=
  ⟨(snake_position_frame.2.1 Snake.mkInit).2.1,
   (snake_position_frame.2.2 Snake.mkInit Reachable.init).2⟩

end TheSnake
